import Mathlib

/-!
Verification of the Underground Music Discovery Engine.

This file gives a shallow embedding of the core recommendation logic of
`get_recommendations.py` (catalog loading, the underground-artist selector,
and the playlist mixer) and proves the specified properties about it.

Modelling conventions:
* pandas DataFrames become lists of records; a CSV row with a missing
  `listeners` field is an `Option` that is `none`.
* Python floats that hold exact user-supplied weights (`discovery_weight`,
  `percentile_threshold`) are modelled as rationals, matching the spec's
  exact floor/quantile arithmetic.
* `random.sample(pop, k)` is modelled as taking the first `k` elements of a
  caller-supplied reordering of the candidate list (the reordering stands
  for the random permutation drawn by the sampler); `random.shuffle` is
  modelled by stating the theorems for every permutation of the mixer
  output.
* the Last.fm HTTP layer is modelled by a `Provider` record holding the two
  logical operations the engine consumes.
-/

/-- One raw CSV row of `lastfm_artists_with_listeners.csv`; the `listeners`
field may be missing (pandas `NaN`), which `load_artist_data` drops. -/
structure RawRow where
  artist_name : String
  listeners : Option ℤ
  tag : String
deriving DecidableEq

/-- One in-memory catalog row after `load_artist_data`: `listeners` has been
cast to an integer and is always present. -/
structure ArtistRow where
  artist_name : String
  listeners : ℤ
  tag : String
deriving DecidableEq

/-- Embedding of `load_artist_data` (lines 38-50): read the rows, drop the
rows whose `listeners` field is missing (`df.dropna(subset=['listeners'])`),
and cast the surviving counts to integers. -/
def load_artist_data (rows : List RawRow) : List ArtistRow :=
  rows.filterMap (fun r => r.listeners.map (fun l => ⟨r.artist_name, l, r.tag⟩))

/-- Character-wise lowercase of a string; models Python `str.lower()` as used
by the engine (ASCII artist-name matching). -/
def strLower (s : String) : String :=
  String.mk (s.data.map Char.toLower)

/-- Strip leading and trailing whitespace; models Python `str.strip()` /
pandas `.str.strip()`. Used only by the spec-side matching predicate: the
engine's own lookup never trims. -/
def trimStr (s : String) : String :=
  String.mk (((s.data.dropWhile Char.isWhitespace).reverse.dropWhile Char.isWhitespace).reverse)

/-- Deduplicate a list keeping the first occurrence of each element, the
order pandas `Series.unique()` uses. `seen` accumulates already-kept
elements. -/
def uniqueFirstAux {α : Type} [DecidableEq α] (seen : List α) : List α → List α
  | [] => []
  | x :: xs => if x ∈ seen then uniqueFirstAux seen xs else x :: uniqueFirstAux (x :: seen) xs

/-- Deduplication keeping first occurrences, as pandas `Series.unique()`. -/
def uniqueFirst {α : Type} [DecidableEq α] (l : List α) : List α :=
  uniqueFirstAux [] l

/-- Insert a rational into a sorted list, keeping it sorted. -/
def insertSorted (x : ℚ) : List ℚ → List ℚ
  | [] => [x]
  | y :: ys => if x ≤ y then x :: y :: ys else y :: insertSorted x ys

/-- Sort a list of rationals into nondecreasing order (insertion sort);
models the internal sort performed by pandas `Series.quantile`. -/
def sortQ (xs : List ℚ) : List ℚ :=
  xs.foldr insertSorted []

/-- Linear-interpolation quantile of an already sorted list, pandas'
default `interpolation='linear'`: at fractional position
`h = p * (length - 1)` interpolate between the neighbouring order
statistics. An empty series has no quantile (pandas yields `NaN`); the
engine never asks for one, and we return `0` there. -/
def quantileSorted (s : List ℚ) (p : ℚ) : ℚ :=
  if s.length = 0 then 0
  else
    let h : ℚ := p * ((s.length : ℚ) - 1)
    let i : ℕ := (⌊h⌋).toNat
    let lo : ℚ := s.getD i 0
    let hi : ℚ := s.getD (min (i + 1) (s.length - 1)) 0
    lo + (h - (⌊h⌋ : ℚ)) * (hi - lo)

/-- Embedding of `Series.quantile(p)` with the default linear
interpolation, as called on line 152 of `get_recommendations.py`. -/
def quantile (xs : List ℚ) (p : ℚ) : ℚ :=
  quantileSorted (sortQ xs) p

/-- Python `int()` applied to an exact rational: truncation toward zero. -/
def pyInt (q : ℚ) : ℤ :=
  if q < 0 then -⌊-q⌋ else ⌊q⌋

/-- Embedding of line 140: the catalog tags of the seed artist, found by a
case-insensitive (untrimmed) name match, deduplicated in first-occurrence
order by `unique()`. -/
def seedTagsList (seed : String) (df : List ArtistRow) : List String :=
  uniqueFirst ((df.filter (fun r => strLower r.artist_name == strLower seed)).map (fun r => r.tag))

/-- Embedding of line 147: the primary genre is the first tag found for the
seed artist, when there is one. -/
def primaryGenre (seed : String) (df : List ArtistRow) : Option String :=
  (seedTagsList seed df).head?

/-- Embedding of line 151: all catalog rows carrying a given genre tag. -/
def genreRows (df : List ArtistRow) (g : String) : List ArtistRow :=
  df.filter (fun r => r.tag == g)

/-- Embedding of line 152: the dynamic underground listener threshold for a
genre, the `percentile_threshold` quantile of its listener counts. -/
def genreThreshold (df : List ArtistRow) (g : String) (p : ℚ) : ℚ :=
  quantile ((genreRows df g).map (fun r => (r.listeners : ℚ))) p

/-- Embedding of lines 151-159: the rows of the seed's primary genre whose
listener count is at or below the genre threshold, with the seed artist
excluded by a case-insensitive name match. Empty when the seed has no
catalog entry. -/
def undergroundRows (seed : String) (df : List ArtistRow) (p : ℚ) : List ArtistRow :=
  match primaryGenre seed df with
  | none => []
  | some g =>
    ((genreRows df g).filter (fun r => decide ((r.listeners : ℚ) ≤ genreThreshold df g p))).filter
      (fun r => !(strLower r.artist_name == strLower seed))

/-- Embedding of line 166: the deduplicated candidate artist names
(`underground_artists_df['artist_name'].unique()`), in first-occurrence
order. -/
def candidateNames (seed : String) (df : List ArtistRow) (p : ℚ) : List String :=
  uniqueFirst ((undergroundRows seed df p).map (fun r => r.artist_name))

/-- Embedding of `find_underground_artists` (lines 133-173). `sampleOrder`
stands for the random order drawn by `random.sample`: when more than
`maxA` candidates exist, the code returns `maxA` names sampled without
replacement, modelled as the first `maxA` entries of a permutation of the
candidate list. -/
def find_underground_artists (seed : String) (df : List ArtistRow) (p : ℚ) (maxA : ℕ)
    (sampleOrder : List String) : List String :=
  if seedTagsList seed df = [] then []
  else if undergroundRows seed df p = [] then []
  else if (candidateNames seed df p).length ≤ maxA then candidateNames seed df p
  else sampleOrder.take maxA

/-- Embedding of line 214: `num_discovery_tracks = int(playlist_size * discovery_weight)`. -/
def num_discovery_tracks (n : ℕ) (w : ℚ) : ℤ :=
  pyInt ((n : ℚ) * w)

/-- Embedding of line 215: `num_relevant_tracks = playlist_size - num_discovery_tracks`. -/
def num_relevant_tracks (n : ℕ) (w : ℚ) : ℤ :=
  (n : ℤ) - num_discovery_tracks n w

/-- One deduplicating quota-bounded pass of the mixer (lines 223-230): walk
the pool in order, appending a track to the accumulator when the
accumulator is still shorter than the quota and the track is not already
present. -/
def addPool (q : ℤ) : List String → List String → List String
  | [], acc => acc
  | t :: ts, acc =>
    if (acc.length : ℤ) < q ∧ t ∉ acc then addPool q ts (acc ++ [t]) else addPool q ts acc

/-- Embedding of the mixer (lines 213-230): fill from the relevant pool up
to `num_relevant_tracks`, then from the discovery pool up to
`playlist_size`, deduplicating throughout. The trailing `random.shuffle`
(line 234) permutes this list; the theorems below are stated for every
permutation of it. -/
def mixTracks (relevant discovery : List String) (w : ℚ) (n : ℕ) : List String :=
  addPool (n : ℤ) discovery (addPool (num_relevant_tracks n w) relevant [])

/-- The two Last.fm capabilities the engine consumes (`artist.getsimilar`
and `artist.gettoptracks`), modelled as pure functions of the query. A
provider failure for an artist is modelled by an empty track list, as the
code maps errors to `[]`. -/
structure Provider where
  similar : String → ℕ → List String
  topTracks : String → ℕ → List String

/-- Embedding of `get_top_tracks_for_artists` (lines 92-130): one provider
call per artist, results keyed by artist name. A Python dict keyed by
artist collapses repeated names to one entry, hence the `uniqueFirst`. -/
def get_top_tracks_for_artists (prov : Provider) (names : List String) (limitPer : ℕ) :
    List (String × List String) :=
  (uniqueFirst names).map (fun a => (a, prov.topTracks a limitPer))

/-- Embedding of lines 210-211: flatten the per-artist track lists, in
artist order. -/
def flattenTracks (m : List (String × List String)) : List String :=
  (m.map Prod.snd).flatten

/-- The relevance pool built by Step 1 of `get_recommendations`
(lines 193-197, 210). -/
def relevantPool (prov : Provider) (seed : String) (n : ℕ) : List String :=
  flattenTracks (get_top_tracks_for_artists prov (prov.similar seed n) 5)

/-- The discovery pool built by Step 2 of `get_recommendations`
(lines 200-204, 211). -/
def discoveryPool (prov : Provider) (seed : String) (df : List ArtistRow) (n : ℕ)
    (sampleOrder : List String) : List String :=
  flattenTracks (get_top_tracks_for_artists prov (find_underground_artists seed df (3/4) n sampleOrder) 5)

/-- Embedding of `get_recommendations` (lines 175-243), returning the final
playlist before the closing `random.shuffle` (the theorems quantify over
its permutations). `num_artists_to_fetch = playlist_size` as on line 190;
`percentile_threshold` keeps its default `0.75`. -/
def get_recommendations (prov : Provider) (seed : String) (df : List ArtistRow)
    (w : ℚ) (n : ℕ) (sampleOrder : List String) : List String :=
  mixTracks (relevantPool prov seed n) (discoveryPool prov seed df n sampleOrder) w n

/-- The engine's seed lookup succeeds: some catalog row matches the seed
name under the code's own matching (line 142 checks the tag list is
nonempty). -/
def lookupFound (seed : String) (df : List ArtistRow) : Prop :=
  seedTagsList seed df ≠ []

/-- Modelled from the spec: a catalog row matches the seed "up to letter
case and leading/trailing whitespace". Spec-side comparison predicate for
the matching claim; the code itself never trims. -/
def specSeedMatch (seed : String) (df : List ArtistRow) : Prop :=
  ∃ r ∈ df, strLower (trimStr r.artist_name) = strLower (trimStr seed)

/-- Concrete catalog for the quantile claim: one genre holding exactly four
artists with listener counts 100, 200, 300 and 400. -/
def quantileDf : List ArtistRow :=
  [⟨"A100", 100, "g"⟩, ⟨"A200", 200, "g"⟩, ⟨"A300", 300, "g"⟩, ⟨"A400", 400, "g"⟩]

/-- Concrete catalog for the sampling claim: the seed artist and two other
artists of its genre, all below any threshold of their own genre. -/
def sampleDf : List ArtistRow :=
  [⟨"Seed", 5, "g"⟩, ⟨"B", 5, "g"⟩, ⟨"C", 5, "g"⟩]

/-- Concrete one-row catalog for the matching claim. -/
def matchDf : List ArtistRow :=
  [⟨"Adele", 100, "pop"⟩]

/-- Concrete provider for the degradation scenario: every similarity query
returns one artist, whose top-track query returns one track. -/
def provA : Provider :=
  ⟨fun _ _ => ["Similar Artist"], fun _ _ => ["Similar Artist - Hit"]⟩

/-! Helper lemmas about the mixer pass `addPool`. -/

theorem addPool_nil (q : ℤ) (acc : List String) : addPool q [] acc = acc := rfl

theorem addPool_length_le (q : ℤ) (pool : List String) (m : ℕ) :
    ∀ acc : List String, acc.length ≤ m → q ≤ (m : ℤ) →
      (addPool q pool acc).length ≤ m := by
  induction pool with
  | nil => intro acc h _; simpa [addPool] using h
  | cons t ts ih =>
    intro acc hacc hq
    rw [addPool]
    by_cases hc : (acc.length : ℤ) < q ∧ t ∉ acc
    · rw [if_pos hc]
      refine ih _ ?_ hq
      have h1 : (acc.length : ℤ) < q := hc.1
      have h2 : (acc ++ [t]).length = acc.length + 1 := by simp
      omega
    · rw [if_neg hc]
      exact ih acc hacc hq

theorem addPool_nodup (q : ℤ) (pool : List String) :
    ∀ acc : List String, acc.Nodup → (addPool q pool acc).Nodup := by
  induction pool with
  | nil => intro acc h; simpa [addPool] using h
  | cons t ts ih =>
    intro acc hacc
    rw [addPool]
    by_cases hc : (acc.length : ℤ) < q ∧ t ∉ acc
    · rw [if_pos hc]
      refine ih _ ?_
      simp [List.nodup_append, hacc, hc.2]
    · rw [if_neg hc]
      exact ih acc hacc

theorem addPool_mem (q : ℤ) (pool : List String) :
    ∀ acc x, x ∈ addPool q pool acc → x ∈ acc ∨ x ∈ pool := by
  induction pool with
  | nil => intro acc x h; exact Or.inl (by simpa [addPool] using h)
  | cons t ts ih =>
    intro acc x h
    rw [addPool] at h
    by_cases hc : (acc.length : ℤ) < q ∧ t ∉ acc
    · rw [if_pos hc] at h
      rcases ih _ x h with h1 | h1
      · rcases List.mem_append.mp h1 with h2 | h2
        · exact Or.inl h2
        · right
          simp only [List.mem_singleton] at h2
          simp [h2]
      · right
        exact List.mem_cons_of_mem _ h1
    · rw [if_neg hc] at h
      rcases ih acc x h with h1 | h1
      · exact Or.inl h1
      · right
        exact List.mem_cons_of_mem _ h1

theorem addPool_stop (q : ℤ) (pool : List String) :
    ∀ acc : List String, q ≤ (acc.length : ℤ) → addPool q pool acc = acc := by
  induction pool with
  | nil => intro acc _; rfl
  | cons t ts ih =>
    intro acc h
    rw [addPool, if_neg (fun hc => absurd hc.1 (not_lt.mpr h))]
    exact ih acc h

theorem addPool_ne_nil (q : ℤ) (pool : List String) :
    ∀ acc : List String, acc ≠ [] → addPool q pool acc ≠ [] := by
  induction pool with
  | nil => intro acc h; simpa [addPool] using h
  | cons t ts ih =>
    intro acc h
    rw [addPool]
    by_cases hc : (acc.length : ℤ) < q ∧ t ∉ acc
    · rw [if_pos hc]
      exact ih _ (by simp)
    · rw [if_neg hc]
      exact ih acc h

theorem addPool_head_nonempty (q : ℤ) (t : String) (ts : List String) (h : 0 < q) :
    addPool q (t :: ts) [] ≠ [] := by
  rw [addPool, if_pos]
  · exact addPool_ne_nil q ts [t] (by simp)
  · constructor
    · simpa using h
    · simp

/-! Helper lemmas about first-occurrence deduplication. -/

theorem uniqueFirstAux_mem {α : Type} [DecidableEq α] (l : List α) :
    ∀ (seen : List α) (x : α), x ∈ uniqueFirstAux seen l ↔ x ∈ l ∧ x ∉ seen := by
  induction l with
  | nil => intro seen x; simp [uniqueFirstAux]
  | cons a as ih =>
    intro seen x
    rw [uniqueFirstAux]
    by_cases ha : a ∈ seen
    · rw [if_pos ha, ih]
      constructor
      · rintro ⟨hx, hs⟩
        exact ⟨List.mem_cons_of_mem _ hx, hs⟩
      · rintro ⟨hx, hs⟩
        rcases List.mem_cons.mp hx with rfl | hx
        · exact absurd ha hs
        · exact ⟨hx, hs⟩
    · rw [if_neg ha]
      constructor
      · intro hmem
        rcases List.mem_cons.mp hmem with rfl | hmem
        · exact ⟨List.mem_cons_self _ _, ha⟩
        · rcases (ih _ x).mp hmem with ⟨hx, hs⟩
          exact ⟨List.mem_cons_of_mem _ hx, fun hxs => hs (List.mem_cons_of_mem _ hxs)⟩
      · rintro ⟨hx, hs⟩
        by_cases hxa : x = a
        · exact hxa ▸ List.mem_cons_self _ _
        · rcases List.mem_cons.mp hx with rfl | hx
          · exact absurd rfl hxa
          · refine List.mem_cons_of_mem _ ((ih _ x).mpr ⟨hx, ?_⟩)
            intro hmem
            rcases List.mem_cons.mp hmem with rfl | h2
            · exact hxa rfl
            · exact hs h2

theorem uniqueFirstAux_nodup {α : Type} [DecidableEq α] (l : List α) :
    ∀ seen : List α, (uniqueFirstAux seen l).Nodup := by
  induction l with
  | nil => intro seen; simp [uniqueFirstAux]
  | cons a as ih =>
    intro seen
    rw [uniqueFirstAux]
    by_cases ha : a ∈ seen
    · rw [if_pos ha]
      exact ih seen
    · rw [if_neg ha]
      refine List.nodup_cons.mpr ⟨?_, ih _⟩
      intro hmem
      exact ((uniqueFirstAux_mem as _ a).mp hmem).2 (List.mem_cons_self a seen)

theorem uniqueFirst_nodup {α : Type} [DecidableEq α] (l : List α) : (uniqueFirst l).Nodup :=
  uniqueFirstAux_nodup l []

theorem uniqueFirst_mem {α : Type} [DecidableEq α] (l : List α) (x : α) :
    x ∈ uniqueFirst l ↔ x ∈ l := by
  rw [uniqueFirst, uniqueFirstAux_mem]
  simp

/-! Helper lemmas about `pyInt` and the mixer quotas. -/

theorem pyInt_of_nonneg {q : ℚ} (h : 0 ≤ q) : pyInt q = ⌊q⌋ := by
  rw [pyInt, if_neg (not_lt.mpr h)]

theorem num_discovery_eq_floor {n : ℕ} {w : ℚ} (hw : 0 ≤ w) :
    num_discovery_tracks n w = ⌊(n : ℚ) * w⌋ := by
  rw [num_discovery_tracks, pyInt_of_nonneg (mul_nonneg (Nat.cast_nonneg n) hw)]

theorem num_discovery_nonneg {n : ℕ} {w : ℚ} (hw : 0 ≤ w) :
    0 ≤ num_discovery_tracks n w := by
  rw [num_discovery_eq_floor hw]
  exact Int.floor_nonneg.mpr (mul_nonneg (Nat.cast_nonneg n) hw)

theorem num_discovery_le {n : ℕ} {w : ℚ} (hw0 : 0 ≤ w) (hw1 : w ≤ 1) :
    num_discovery_tracks n w ≤ (n : ℤ) := by
  rw [num_discovery_eq_floor hw0]
  have h1 : (n : ℚ) * w ≤ (n : ℚ) := by
    calc (n : ℚ) * w ≤ (n : ℚ) * 1 := mul_le_mul_of_nonneg_left hw1 (Nat.cast_nonneg n)
    _ = (n : ℚ) := mul_one _
  calc ⌊(n : ℚ) * w⌋ ≤ ⌊(n : ℚ)⌋ := Int.floor_le_floor h1
  _ = (n : ℤ) := Int.floor_natCast n

theorem num_relevant_le {n : ℕ} {w : ℚ} (hw : 0 ≤ w) :
    num_relevant_tracks n w ≤ (n : ℤ) := by
  have := num_discovery_nonneg (n := n) hw
  rw [num_relevant_tracks]
  omega

theorem num_relevant_nonneg {n : ℕ} {w : ℚ} (hw0 : 0 ≤ w) (hw1 : w ≤ 1) :
    0 ≤ num_relevant_tracks n w := by
  have := num_discovery_le (n := n) hw0 hw1
  rw [num_relevant_tracks]
  omega

theorem num_relevant_pos {n : ℕ} {w : ℚ} (hw0 : 0 ≤ w) (hw1 : w < 1) (hn : 1 ≤ n) :
    1 ≤ num_relevant_tracks n w := by
  have h1 : num_discovery_tracks n w < (n : ℤ) := by
    rw [num_discovery_eq_floor hw0, Int.floor_lt]
    have hn0 : (0 : ℚ) < (n : ℚ) := by exact_mod_cast hn
    have h2 : (n : ℚ) * w < (n : ℚ) * 1 := mul_lt_mul_of_pos_left hw1 hn0
    rw [mul_one] at h2
    exact_mod_cast h2
  rw [num_relevant_tracks]
  omega

/-! Evaluation helpers for the extreme discovery weights. -/

theorem num_relevant_w0 (n : ℕ) : num_relevant_tracks n 0 = (n : ℤ) := by
  rw [num_relevant_tracks, num_discovery_tracks, mul_zero, pyInt_of_nonneg le_rfl,
    Int.floor_zero, sub_zero]

theorem num_relevant_w1 (n : ℕ) : num_relevant_tracks n 1 = 0 := by
  rw [num_relevant_tracks, num_discovery_tracks, mul_one,
    pyInt_of_nonneg (Nat.cast_nonneg n), Int.floor_natCast, sub_self]

/-- C1: for every discovery weight in [0, 1], every playlist size of at
least one, and every pair of input pools, every permutation of the mixer
output (hence the shuffled playlist) has length at most the playlist size;
pool exhaustion can only make it shorter, never longer. -/
theorem mixer_output_length_le (relevant discovery : List String) (w : ℚ) (n : ℕ)
    (hw0 : 0 ≤ w) (hw1 : w ≤ 1) (hn : 1 ≤ n)
    (out : List String) (hout : out.Perm (mixTracks relevant discovery w n)) :
    out.length ≤ n := by
  rw [hout.length_eq, mixTracks]
  exact addPool_length_le _ _ n _
    (addPool_length_le _ _ n [] (Nat.zero_le n) (num_relevant_le hw0)) le_rfl

theorem mixer_output_length_le_witness :
    (0 : ℚ) ≤ 1 ∧ (1 : ℚ) ≤ 1 ∧ 1 ≤ 1 ∧
      (mixTracks ["Artist A - Song"] ["Artist B - Song"] 1 1).length ≤ 1 :=
  ⟨zero_le_one, le_refl 1, le_refl 1,
    mixer_output_length_le ["Artist A - Song"] ["Artist B - Song"] 1 1 zero_le_one
      (le_refl 1) (le_refl 1) _ (List.Perm.refl _)⟩

/-- C2: the mixer output never contains two equal display strings — every
permutation of the mixer output is duplicate-free, for all input pools,
including pools that overlap or repeat internally. -/
theorem mixer_output_nodup (relevant discovery : List String) (w : ℚ) (n : ℕ)
    (out : List String) (hout : out.Perm (mixTracks relevant discovery w n)) :
    out.Nodup := by
  rw [hout.nodup_iff]
  exact addPool_nodup _ _ _ (addPool_nodup _ _ [] List.nodup_nil)

theorem mixer_output_nodup_witness :
    (mixTracks ["X - a", "X - a", "X - b"] ["X - a", "X - c"] 0 5).Nodup :=
  mixer_output_nodup ["X - a", "X - a", "X - b"] ["X - a", "X - c"] 0 5 _ (List.Perm.refl _)

/-- C3: the mixer quota split is the exact floor/remainder split:
`num_discovery_tracks` is the floor of `playlist_size * discovery_weight`,
`num_relevant_tracks` is the difference, the two quotas sum to the playlist
size exactly, and the discovery quota stays within [0, playlist_size]. -/
theorem mixer_quota_split (n : ℕ) (w : ℚ) (hw0 : 0 ≤ w) (hw1 : w ≤ 1) (hn : 1 ≤ n) :
    num_discovery_tracks n w = ⌊(n : ℚ) * w⌋ ∧
    num_relevant_tracks n w = (n : ℤ) - num_discovery_tracks n w ∧
    num_discovery_tracks n w + num_relevant_tracks n w = (n : ℤ) ∧
    0 ≤ num_discovery_tracks n w ∧ num_discovery_tracks n w ≤ (n : ℤ) := by
  refine ⟨num_discovery_eq_floor hw0, rfl, ?_, num_discovery_nonneg hw0,
    num_discovery_le hw0 hw1⟩
  rw [num_relevant_tracks]
  ring

theorem mixer_quota_split_witness :
    (0 : ℚ) ≤ 7/10 ∧ (7/10 : ℚ) ≤ 1 ∧ 1 ≤ 20 ∧
      num_discovery_tracks 20 (7/10) + num_relevant_tracks 20 (7/10) = (20 : ℤ) :=
  ⟨by norm_num, by norm_num, by norm_num,
    (mixer_quota_split 20 (7/10) (by norm_num) (by norm_num) (by norm_num)).2.2.1⟩

/-- C4 counterexample: with `discovery_weight = 0` the discovery pool is
still consulted — here the discovery track `"d"` fills the playlist because
the relevant pool is empty — and with `discovery_weight = 1` a track of the
relevant pool still appears when the discovery pool shares it. -/
theorem mixer_extreme_weights_counterexample :
    mixTracks [] ["d"] 0 1 = ["d"] ∧ mixTracks ["x"] ["x"] 1 1 = ["x"] := by
  constructor
  · rw [mixTracks, addPool_nil]
    decide
  · rw [mixTracks, num_relevant_w1]
    decide

/-- C4 (amended): at `discovery_weight = 1` the relevant quota is zero, the
relevant pass appends nothing and every playlist track is drawn from the
discovery pool; at `discovery_weight = 0` the discovery quota is zero and
the relevant quota is the full playlist size, but the discovery loop still
runs and can backfill — it is guaranteed to contribute nothing only when
the relevant pass already filled the playlist. -/
theorem mixer_extreme_weights (relevant discovery : List String) (n : ℕ) :
    num_relevant_tracks n 1 = 0 ∧
    addPool (num_relevant_tracks n 1) relevant [] = [] ∧
    (∀ t ∈ mixTracks relevant discovery 1 n, t ∈ discovery) ∧
    num_relevant_tracks n 0 = (n : ℤ) ∧
    ((addPool ((n : ℕ) : ℤ) relevant []).length = n →
      mixTracks relevant discovery 0 n = addPool ((n : ℕ) : ℤ) relevant []) := by
  have h1 : num_relevant_tracks n 1 = 0 := num_relevant_w1 n
  have h2 : addPool (num_relevant_tracks n 1) relevant [] = [] := by
    rw [h1]
    exact addPool_stop 0 relevant [] (by simp)
  refine ⟨h1, h2, ?_, num_relevant_w0 n, ?_⟩
  · intro t ht
    rw [mixTracks, h2] at ht
    rcases addPool_mem _ _ _ t ht with h | h
    · simp at h
    · exact h
  · intro hfull
    rw [mixTracks, num_relevant_w0]
    exact addPool_stop _ _ _ (by exact_mod_cast hfull.ge)

theorem mixer_extreme_weights_witness :
    (addPool ((2 : ℕ) : ℤ) ["a", "b"] []).length = 2 ∧
    mixTracks ["a", "b"] ["c"] 0 2 = addPool ((2 : ℕ) : ℤ) ["a", "b"] [] :=
  ⟨by decide, (mixer_extreme_weights ["a", "b"] ["c"] 2).2.2.2.2 (by decide)⟩

/-- C10: the relevant quota is a hard cap. The relevant pass contributes at
most `num_relevant_tracks`; every further playlist track comes from the
discovery pool; and with an empty discovery pool the whole output stays
within the relevant quota no matter how large the relevant pool is —
relevant tracks never backfill the discovery shortfall. -/
theorem relevant_quota_hard_cap (relevant discovery : List String) (w : ℚ) (n : ℕ)
    (hw0 : 0 ≤ w) (hw1 : w ≤ 1) (hn : 1 ≤ n) :
    (addPool (num_relevant_tracks n w) relevant []).length ≤ (num_relevant_tracks n w).toNat ∧
    (∀ t ∈ mixTracks relevant discovery w n,
        t ∈ addPool (num_relevant_tracks n w) relevant [] ∨ t ∈ discovery) ∧
    (∀ out : List String, out.Perm (mixTracks relevant [] w n) →
        out.length ≤ (num_relevant_tracks n w).toNat) := by
  have h0 : 0 ≤ num_relevant_tracks n w := num_relevant_nonneg hw0 hw1
  have hcap : (addPool (num_relevant_tracks n w) relevant []).length ≤
      (num_relevant_tracks n w).toNat := by
    refine addPool_length_le _ _ _ [] (Nat.zero_le _) ?_
    omega
  refine ⟨hcap, ?_, ?_⟩
  · intro t ht
    exact addPool_mem _ _ _ t ht
  · intro out hout
    rw [hout.length_eq, mixTracks, addPool_nil]
    exact hcap

theorem relevant_quota_hard_cap_witness :
    (0 : ℚ) ≤ 1/2 ∧ (1/2 : ℚ) ≤ 1 ∧ 1 ≤ 2 ∧
      (mixTracks ["a", "b", "c"] [] (1/2) 2).length ≤ (num_relevant_tracks 2 (1/2)).toNat :=
  ⟨by norm_num, by norm_num, by norm_num,
    (relevant_quota_hard_cap ["a", "b", "c"] [] (1/2) 2 (by norm_num) (by norm_num)
      (by norm_num)).2.2 _ (List.Perm.refl _)⟩

/-! Catalog load. -/

theorem load_eq_filter_map (rows : List RawRow) :
    load_artist_data rows =
      (rows.filter (fun r => r.listeners.isSome)).map
        (fun r => ⟨r.artist_name, r.listeners.getD 0, r.tag⟩) := by
  induction rows with
  | nil => rfl
  | cons r rs ih =>
    cases hl : r.listeners with
    | none =>
      rw [load_artist_data, List.filterMap_cons, hl]
      rw [load_artist_data] at ih
      rw [ih, List.filter_cons]
      simp [hl]
    | some v =>
      rw [load_artist_data, List.filterMap_cons, hl]
      rw [load_artist_data] at ih
      rw [ih, List.filter_cons]
      simp [hl]

/-- C9: the catalog load drops exactly the input rows whose `listeners`
field is missing: the loaded catalog is the clean rows in order, each with
its present integer count, and the catalog size counts only the clean
rows. Every in-memory record therefore carries a (non-null) listener
count by construction. -/
theorem load_drops_missing_rows (rows : List RawRow) :
    load_artist_data rows =
      (rows.filter (fun r => r.listeners.isSome)).map
        (fun r => ⟨r.artist_name, r.listeners.getD 0, r.tag⟩) ∧
    (load_artist_data rows).length = (rows.filter (fun r => r.listeners.isSome)).length :=
  ⟨load_eq_filter_map rows, by rw [load_eq_filter_map, List.length_map]⟩

/-! Seed-name matching. -/

theorem uniqueFirst_eq_nil {α : Type} [DecidableEq α] (l : List α) :
    uniqueFirst l = [] ↔ l = [] := by
  cases l with
  | nil => simp [uniqueFirst, uniqueFirstAux]
  | cons a as => simp [uniqueFirst, uniqueFirstAux]

/-- C8 counterexample: the seed `" adele"` equals the catalog entry
`"Adele"` up to letter case and surrounding whitespace, yet the engine's
lookup fails: the code lowercases but never trims, so the claimed
biconditional is false at this input. -/
theorem seed_match_counterexample :
    specSeedMatch " adele" matchDf ∧ ¬ lookupFound " adele" matchDf := by
  constructor
  · exact ⟨⟨"Adele", 100, "pop"⟩, by decide, by decide⟩
  · rw [lookupFound]
    decide

/-- C8 (amended): seed matching is case-insensitive but not trimmed — the
lookup succeeds exactly when some catalog `artist_name` equals the seed
after lowercasing both, with surrounding whitespace significant; the
candidate filter likewise excludes exactly the rows whose lowercased name
equals the lowercased seed. -/
theorem seed_match_case_only (seed : String) (df : List ArtistRow) :
    (lookupFound seed df ↔ ∃ r ∈ df, strLower r.artist_name = strLower seed) ∧
    ∀ (p : ℚ) (r : ArtistRow), r ∈ undergroundRows seed df p →
      strLower r.artist_name ≠ strLower seed := by
  constructor
  · rw [lookupFound, seedTagsList]
    constructor
    · intro hne
      have hfil : df.filter (fun r => strLower r.artist_name == strLower seed) ≠ [] := by
        intro h
        rw [h] at hne
        exact hne rfl
      rcases List.exists_mem_of_ne_nil _ hfil with ⟨r, hr⟩
      rcases List.mem_filter.mp hr with ⟨hrdf, hpred⟩
      exact ⟨r, hrdf, by simpa using hpred⟩
    · rintro ⟨r, hrdf, heq⟩
      have hr : r ∈ df.filter (fun r => strLower r.artist_name == strLower seed) :=
        List.mem_filter.mpr ⟨hrdf, by simpa using heq⟩
      have hfil := List.ne_nil_of_mem hr
      intro hnil
      rw [uniqueFirst_eq_nil, List.map_eq_nil_iff] at hnil
      exact hfil hnil
  · intro p r hr
    rw [undergroundRows] at hr
    cases hp : primaryGenre seed df with
    | none =>
      rw [hp] at hr
      simp at hr
    | some g =>
      rw [hp] at hr
      have hpred := (List.mem_filter.mp hr).2
      simpa using hpred

theorem seed_match_case_only_witness : lookupFound "ADELE" matchDf :=
  (seed_match_case_only "ADELE" matchDf).1.mpr ⟨⟨"Adele", 100, "pop"⟩, by decide, by decide⟩

/-! Quantile evaluation on the concrete genre 100, 200, 300, 400. -/

theorem floor_nine_quarters : (⌊(3 : ℚ)/4 * (4 - 1)⌋ : ℤ) = 2 := by
  rw [show (3 : ℚ)/4 * (4 - 1) = 9/4 by norm_num, Int.floor_eq_iff]
  constructor <;> norm_num

theorem quantileDf_genreRows : genreRows quantileDf "g" = quantileDf := by
  decide

theorem quantileDf_threshold : genreThreshold quantileDf "g" (3/4) = 325 := by
  rw [genreThreshold, quantileDf_genreRows,
    show quantileDf.map (fun r => (r.listeners : ℚ)) = [(100 : ℚ), 200, 300, 400] by
      norm_num [quantileDf]]
  rw [quantile, show sortQ [(100 : ℚ), 200, 300, 400] = [(100 : ℚ), 200, 300, 400] by
    norm_num [sortQ, insertSorted]]
  rw [quantileSorted]
  norm_num [floor_nine_quarters, List.getD, show Int.toNat 2 = 2 from rfl]

theorem quantileDf_filter :
    (genreRows quantileDf "g").filter
        (fun r => decide ((r.listeners : ℚ) ≤ genreThreshold quantileDf "g" (3/4))) =
      [⟨"A100", 100, "g"⟩, ⟨"A200", 200, "g"⟩, ⟨"A300", 300, "g"⟩] := by
  rw [quantileDf_genreRows]
  simp only [quantileDf_threshold]
  norm_num [quantileDf, List.filter]

/-- C5: for a genre whose rows have listener counts 100, 200, 300 and 400,
the selector's dynamic threshold at `percentile_threshold = 0.75` equals
325 (the linear-interpolation quantile between the order statistics 300
and 400), and exactly the artists with at most 325 listeners pass the
underground filter. -/
theorem underground_threshold_example :
    genreThreshold quantileDf "g" (3/4) = 325 ∧
    (genreRows quantileDf "g").filter
        (fun r => decide ((r.listeners : ℚ) ≤ genreThreshold quantileDf "g" (3/4))) =
      [⟨"A100", 100, "g"⟩, ⟨"A200", 200, "g"⟩, ⟨"A300", 300, "g"⟩] :=
  ⟨quantileDf_threshold, quantileDf_filter⟩

/-! Evaluation of the selector on the concrete catalog `sampleDf`. -/

theorem sampleDf_primary : primaryGenre "Seed" sampleDf = some "g" := by
  decide

theorem sampleDf_genreRows : genreRows sampleDf "g" = sampleDf := by
  decide

theorem sampleDf_threshold : genreThreshold sampleDf "g" 0 = 5 := by
  rw [genreThreshold, sampleDf_genreRows,
    show sampleDf.map (fun r => (r.listeners : ℚ)) = [(5 : ℚ), 5, 5] by norm_num [sampleDf]]
  rw [quantile, show sortQ [(5 : ℚ), 5, 5] = [(5 : ℚ), 5, 5] by norm_num [sortQ, insertSorted]]
  rw [quantileSorted]
  norm_num [List.getD, show Int.toNat 0 = 0 from rfl]

theorem sampleDf_underground :
    undergroundRows "Seed" sampleDf 0 = [⟨"B", 5, "g"⟩, ⟨"C", 5, "g"⟩] := by
  simp only [undergroundRows, sampleDf_primary]
  rw [sampleDf_genreRows]
  simp only [sampleDf_threshold]
  norm_num [sampleDf, List.filter]
  decide

theorem sampleDf_candidates : candidateNames "Seed" sampleDf 0 = ["B", "C"] := by
  rw [candidateNames, sampleDf_underground]
  decide

/-- C6: when the seed artist is present in the catalog, the selector
returns the whole deduplicated candidate set (the distinct below-threshold
artist names of the seed's primary genre, seed excluded) whenever it has
at most `maxA` names; otherwise it returns exactly `maxA` distinct names,
each a member of the candidate set — a sample without replacement, with
`sampleOrder` standing for the random order drawn by the sampler. -/
theorem find_underground_sample_spec (seed : String) (df : List ArtistRow) (p : ℚ)
    (maxA : ℕ) (sampleOrder : List String)
    (hseed : seedTagsList seed df ≠ [])
    (hperm : sampleOrder.Perm (candidateNames seed df p)) :
    ((candidateNames seed df p).length ≤ maxA →
      find_underground_artists seed df p maxA sampleOrder = candidateNames seed df p) ∧
    (maxA < (candidateNames seed df p).length →
      (find_underground_artists seed df p maxA sampleOrder).length = maxA ∧
      (find_underground_artists seed df p maxA sampleOrder).Nodup ∧
      ∀ x ∈ find_underground_artists seed df p maxA sampleOrder,
        x ∈ candidateNames seed df p) := by
  rw [find_underground_artists, if_neg hseed]
  by_cases hu : undergroundRows seed df p = []
  · rw [if_pos hu]
    have hcand : candidateNames seed df p = [] := by
      rw [candidateNames, hu]
      rfl
    constructor
    · intro _
      rw [hcand]
    · intro hlt
      rw [hcand] at hlt
      simp at hlt
  · rw [if_neg hu]
    constructor
    · intro hle
      rw [if_pos hle]
    · intro hlt
      rw [if_neg (not_le.mpr hlt)]
      have hnodup : sampleOrder.Nodup :=
        hperm.nodup_iff.mpr (uniqueFirst_nodup _)
      refine ⟨?_, ?_, ?_⟩
      · rw [List.length_take, hperm.length_eq]
        exact min_eq_left (le_of_lt hlt)
      · exact List.Nodup.sublist (List.take_sublist _ _) hnodup
      · intro x hx
        exact hperm.mem_iff.mp (List.mem_of_mem_take hx)

theorem find_underground_sample_spec_witness :
    seedTagsList "Seed" sampleDf ≠ [] ∧
    find_underground_artists "Seed" sampleDf 0 5 (candidateNames "Seed" sampleDf 0) =
      candidateNames "Seed" sampleDf 0 :=
  ⟨by decide,
    (find_underground_sample_spec "Seed" sampleDf 0 5 (candidateNames "Seed" sampleDf 0)
        (by decide) (List.Perm.refl _)).1
      (by rw [sampleDf_candidates]; decide)⟩

/-- C7 (amended): for a seed artist with no catalog entry the selector
returns the empty sequence rather than failing, the orchestrator still
completes with a playlist built only from the relevance path, and that
playlist is non-empty whenever the provider supplied relevance tracks and
the discovery weight is below 1 (so the relevance quota is at least one);
at discovery weight exactly 1 the relevance quota is zero and the playlist
is empty. -/
theorem seed_not_found_graceful (prov : Provider) (seed : String) (df : List ArtistRow)
    (w : ℚ) (n : ℕ) (p : ℚ) (maxA : ℕ) (sampleOrder : List String)
    (hseed : seedTagsList seed df = []) :
    find_underground_artists seed df p maxA sampleOrder = [] ∧
    get_recommendations prov seed df w n sampleOrder =
      addPool (num_relevant_tracks n w) (relevantPool prov seed n) [] ∧
    (∀ t ∈ get_recommendations prov seed df w n sampleOrder, t ∈ relevantPool prov seed n) ∧
    (0 ≤ w → w < 1 → 1 ≤ n → relevantPool prov seed n ≠ [] →
      get_recommendations prov seed df w n sampleOrder ≠ []) := by
  have hfu : find_underground_artists seed df p maxA sampleOrder = [] := by
    rw [find_underground_artists, if_pos hseed]
  have hfu2 : find_underground_artists seed df (3/4) n sampleOrder = [] := by
    rw [find_underground_artists, if_pos hseed]
  have hdisc : discoveryPool prov seed df n sampleOrder = [] := by
    rw [discoveryPool, hfu2]
    rfl
  have hmain : get_recommendations prov seed df w n sampleOrder =
      addPool (num_relevant_tracks n w) (relevantPool prov seed n) [] := by
    rw [get_recommendations, hdisc, mixTracks, addPool_nil]
  refine ⟨hfu, hmain, ?_, ?_⟩
  · intro t ht
    rw [hmain] at ht
    rcases addPool_mem _ _ _ t ht with h | h
    · simp at h
    · exact h
  · intro hw0 hw1 hn hne
    rw [hmain]
    cases hrp : relevantPool prov seed n with
    | nil => exact absurd hrp hne
    | cons t ts =>
      exact addPool_head_nonempty _ t ts (lt_of_lt_of_le Int.zero_lt_one
        (num_relevant_pos hw0 hw1 hn))

/-- C7 counterexample: with `discovery_weight = 1` the relevance quota is
zero, so even though the provider supplied a relevance track and the seed
is absent from the catalog, the degraded playlist is empty — the claim's
"non-empty whenever the provider supplied relevance tracks" fails. -/
theorem seed_not_found_graceful_counterexample :
    relevantPool provA "Ghost" 1 = ["Similar Artist - Hit"] ∧
    get_recommendations provA "Ghost" [] 1 1 [] = [] := by
  constructor
  · rfl
  · have hdisc : discoveryPool provA "Ghost" [] 1 [] = [] := rfl
    rw [get_recommendations, hdisc, mixTracks, addPool_nil, num_relevant_w1]
    exact addPool_stop 0 _ [] (by simp)

theorem seed_not_found_graceful_witness :
    seedTagsList "Ghost" ([] : List ArtistRow) = [] ∧
    get_recommendations provA "Ghost" [] 0 1 [] ≠ [] :=
  ⟨rfl,
    (seed_not_found_graceful provA "Ghost" [] 0 1 (3/4) 1 [] rfl).2.2.2 le_rfl
      (by norm_num) le_rfl (by decide)⟩
